import Mathlib

/-!
Formal model of the training-loop scheduling and of the differentiable
pruning gate of a gaussian-splatting training program.  The definitions are
shallow embeddings of `train.py` (the `training` loop), of
`utils/prune_utils.py` (the function `_gumbel_sigmoid`) and of the
configuration records in `arguments/__init__.py`.  Machine floats are
modelled as real numbers; tensors as lists indexed element-wise; the
iteration counter as a natural number.
-/

/-- Configuration record: the fields of `OptimizationParams` (plus the
fine-tune switches read from `opt` in `train.py`) that drive the scheduled
events of the training loop. -/
structure OptParams where
  iterations : ℕ
  densify_from_iter : ℕ
  densify_until_iter : ℕ
  densification_interval : ℕ
  opacity_reset_interval : ℕ
  switch_iteration : ℕ
  use_gumbel_in_finetune : Bool
  use_sigmoid_final : Bool
deriving DecidableEq

/-- Embedding of the densification trigger in `train.py`: the call
`gaussians.densify_and_prune(...)` sits inside
`if iteration < opt.densify_until_iter:` and is guarded by
`if iteration > opt.densify_from_iter and iteration % opt.densification_interval == 0:`. -/
def densifyAndPruneInvoked (opt : OptParams) (iteration : ℕ) : Bool :=
  if iteration < opt.densify_until_iter then
    decide (opt.densify_from_iter < iteration) &&
      (iteration % opt.densification_interval == 0)
  else false

/-- Embedding of the opacity-reset trigger in `train.py`: the call
`gaussians.reset_opacity()` sits inside `if iteration < opt.densify_until_iter:`
and is guarded by `if iteration % opt.opacity_reset_interval == 0 or
(dataset.white_background and iteration == opt.densify_from_iter):`. -/
def resetOpacityInvoked (opt : OptParams) (white_background : Bool)
    (iteration : ℕ) : Bool :=
  if iteration < opt.densify_until_iter then
    (iteration % opt.opacity_reset_interval == 0) ||
      (white_background && (iteration == opt.densify_from_iter))
  else false

/-- Embedding of `size_threshold = 20 if iteration > opt.opacity_reset_interval
else None` in `train.py`; `none` models Python's `None`. -/
def sizeThreshold (opt : OptParams) (iteration : ℕ) : Option ℕ :=
  if opt.opacity_reset_interval < iteration then some 20 else none

/-- The two function values that `train.py` ever assigns to
`gaussians.opacity_activation`: the stochastic Gumbel-sigmoid gate
(`_gumbel_sigmoid`) and the plain `torch.sigmoid`. -/
inductive OpacityActivation
  | gumbelGate
  | sigmoidAct
deriving DecidableEq

/-- One iteration's worth of rebindings of `gaussians.opacity_activation` in
`train.py`, applied in program order: first the pre-render switch
`if iteration == opt.densify_until_iter+1: gaussians.opacity_activation =
torch.sigmoid`, then `if opt.switch_iteration == iteration and
opt.use_gumbel_in_finetune: gaussians.opacity_activation = _gumbel_sigmoid`,
then `if opt.use_sigmoid_final and iteration == opt.densify_until_iter:
gaussians.opacity_activation = torch.sigmoid`. -/
def activationStep (opt : OptParams) (act : OpacityActivation)
    (iteration : ℕ) : OpacityActivation :=
  let a1 := if iteration == opt.densify_until_iter + 1 then
    OpacityActivation.sigmoidAct else act
  let a2 := if (opt.switch_iteration == iteration) && opt.use_gumbel_in_finetune
    then OpacityActivation.gumbelGate else a1
  if opt.use_sigmoid_final && (iteration == opt.densify_until_iter) then
    OpacityActivation.sigmoidAct else a2

/-- The opacity activation after running the iterations in `its` (in order)
starting from activation `act`. -/
def activationAfter (opt : OptParams) (act : OpacityActivation)
    (its : List ℕ) : OpacityActivation :=
  its.foldl (activationStep opt) act

/-- Embedding of the optimizer block of `train.py`:
`if iteration < opt.iterations: gaussians.optimizer.step();
gaussians.optimizer.zero_grad(set_to_none = True)`.  The optimizer's state
(per-point moments and parameters) is abstracted as a value of type `σ`,
`stepFn` as the effect of `optimizer.step()` and `zeroGradFn` as the effect
of `optimizer.zero_grad`. -/
def optimizerPhase {σ : Type} (stepFn zeroGradFn : σ → σ) (opt : OptParams)
    (iteration : ℕ) (st : σ) : σ :=
  if iteration < opt.iterations then zeroGradFn (stepFn st) else st

/-- `loss.backward()` in `train.py` is executed unconditionally in the loop
body, at every iteration. -/
def backwardRuns (iteration : ℕ) : Bool := true

/-- Modelled from the spec: the method `GaussianModel.prune_points` is not
part of the given sources (only its caller in `train.py` is); per the spec it
removes from the point set exactly the points whose entry in the boolean
prune mask is true, keeping the others in order. -/
def prune_points {α : Type} (masks : List α) (pruneMask : List Bool) :
    List α :=
  ((masks.zip pruneMask).filter (fun p => !p.2)).map Prod.fst

/-- State touched by the mask-prune block of `train.py`: the per-point mask
outputs (`gaussians.get_mask`, one scalar per point), the flag
`prune.use_mask` and the mirror flag `gaussians.use_mask`. -/
structure PruneState (α : Type) where
  masks : List α
  use_mask : Bool
  g_use_mask : Bool
deriving DecidableEq

/-- Embedding of the mask-prune block of `train.py`:
`if iteration in prune.prune_iterations:` then `if prune.use_mask:` then
`prune_mask = gaussians.get_mask < 0.5; gaussians.prune_points(prune_mask);
prune.use_mask = False; gaussians.use_mask = False`. -/
def maskPruneStep {α : Type} [LinearOrderedField α] (prune_iterations : List ℕ)
    (st : PruneState α) (iteration : ℕ) : PruneState α :=
  if iteration ∈ prune_iterations then
    if st.use_mask then
      { masks := prune_points st.masks (st.masks.map (fun m => decide (m < 1/2))),
        use_mask := false,
        g_use_mask := false }
    else st
  else st

/-- One exchange with the interactive viewer inside the
`while network_gui.conn != None:` loop of `train.py`.  `Except.error ()`
models an exception raised anywhere in the try-body (receive, render or
send); `Except.ok brk` models a completed exchange, where `brk` is the value
of `do_training and ((iteration < int(opt.iterations)) or not keep_alive)`
that decides the `break`. -/
abbrev ViewerEvent : Type := Except Unit Bool

/-- Embedding of the viewer loop of `train.py` with its
`except Exception: network_gui.conn = None` clause.  The first argument is
the connection state `network_gui.conn` (`none` = `None`); the list holds
the successive outcomes of the try-body.  The result is `Except.ok c` when
the loop exits normally with final connection state `c`; an uncaught
exception would be `Except.error`, which this function never produces
because the source catches every exception and resets the connection. -/
def viewerLoop : Option Unit → List ViewerEvent → Except Unit (Option Unit)
  | none, _ => Except.ok none
  | some _, [] => Except.ok (some ())
  | some _, Except.error _ :: _ => Except.ok none
  | some _, Except.ok brk :: rest =>
      if brk then Except.ok (some ()) else viewerLoop (some ()) rest

/-- The logistic sigmoid, `torch.sigmoid` on reals. -/
noncomputable def sigmoid (x : ℝ) : ℝ := 1 / (1 + Real.exp (-x))

/-- The argument of the outermost logarithm in the noise line of
`_gumbel_sigmoid` (`utils/prune_utils.py`):
`torch.log(uniform1 + eps)/torch.log(uniform2 + eps) + eps`. -/
noncomputable def logArg3 (u1 u2 eps : ℝ) : ℝ :=
  Real.log (u1 + eps) / Real.log (u2 + eps) + eps

/-- Embedding of the noise line of `_gumbel_sigmoid`:
`gumbel_noise = -torch.log(torch.log(uniform1 + eps)/torch.log(uniform2 + eps) + eps)`,
where `uniform1` is the first and `uniform2` the second uniform sample drawn. -/
noncomputable def gumbel_noise (u1 u2 eps : ℝ) : ℝ :=
  -Real.log (logArg3 u1 u2 eps)

/-- The gate's noise term as the spec's own formula writes it:
`noise = -log( log(u2+eps) / log(u1+eps) + eps )`, with the numerator of the
inner ratio computed from the second sample `u2` and the denominator from the
first sample `u1`.  Stated from the spec's words for comparison with the
source-derived `gumbel_noise`. -/
noncomputable def specNoise (u1 u2 eps : ℝ) : ℝ :=
  -Real.log (Real.log (u2 + eps) / Real.log (u1 + eps) + eps)

/-- The soft gate value of `_gumbel_sigmoid` at one element:
`y_soft = torch.sigmoid((input + gumbel_noise)/temperature)` with the noise
sample fixed. -/
noncomputable def y_soft_val (input noise temperature : ℝ) : ℝ :=
  sigmoid ((input + noise) / temperature)

/-- Element-wise soft gate values for a 1-D tensor of logits and a fixed
noise tensor of the same length. -/
noncomputable def y_soft_list (logits noises : List ℝ) (temperature : ℝ) :
    List ℝ :=
  List.zipWith (fun a g => y_soft_val a g temperature) logits noises

/-- Embedding of `index = (y_soft > 0.5).nonzero(as_tuple=True)[0]` for a 1-D
tensor: the list of positions whose soft value exceeds one half. -/
def nonzeroGtHalf {α : Type} [LinearOrderedField α] (ys : List α) : List ℕ :=
  (List.range ys.length).filter (fun i => decide (1/2 < ys.getD i 0))

/-- Embedding of
`torch.zeros_like(input, ...).scatter_(-1, index, 1.0)` for a 1-D tensor:
start from a zero tensor of length `n` and write a one at every index in
`idx`. -/
def scatterOnes {α : Type} [Zero α] [One α] (n : ℕ) (idx : List ℕ) : List α :=
  idx.foldl (fun acc i => acc.set i 1) (List.replicate n 0)

/-- The hard gate values of `_gumbel_sigmoid` for a 1-D tensor of soft
values: `y_hard = zeros.scatter_(-1, (y_soft > 0.5).nonzero(...)[0], 1.0)`. -/
def y_hard {α : Type} [LinearOrderedField α] (ys : List α) : List α :=
  scatterOnes ys.length (nonzeroGtHalf ys)

/-- A scalar tensor node of the autograd graph in forward (dual-number) form:
its forward value and its derivative with respect to a chosen scalar input. -/
structure Dual where
  val : ℝ
  grad : ℝ

/-- Elementwise tensor addition as autograd sees it. -/
def Dual.add (x y : Dual) : Dual := ⟨x.val + y.val, x.grad + y.grad⟩

/-- Elementwise tensor subtraction as autograd sees it. -/
def Dual.sub (x y : Dual) : Dual := ⟨x.val - y.val, x.grad - y.grad⟩

/-- `Tensor.detach()`: same forward value, no gradient flow. -/
def Dual.detach (x : Dual) : Dual := ⟨x.val, 0⟩

/-- A tensor created outside the autograd graph (such as `y_hard`, built with
`torch.zeros_like(...).scatter_`): constant with respect to the input. -/
def Dual.const (v : ℝ) : Dual := ⟨v, 0⟩

/-- Embedding of the straight-through line of `_gumbel_sigmoid`:
`ret = y_hard - y_soft.detach() + y_soft`, at one element, where `yhard` is
the (graph-constant) hard value and `ysoft` the soft value with its
gradient. -/
def straightThrough (yhard : ℝ) (ysoft : Dual) : Dual :=
  ((Dual.const yhard).sub ysoft.detach).add ysoft

/-- Concrete configuration used to exhibit the missing densification-window
guard on the opacity reset. -/
def optC6 : OptParams :=
  { iterations := 10, densify_from_iter := 1, densify_until_iter := 5,
    densification_interval := 2, opacity_reset_interval := 3,
    switch_iteration := 0, use_gumbel_in_finetune := false,
    use_sigmoid_final := false }

/-- Concrete configuration (white background) used to exhibit the extra
opacity reset at `densify_from_iter` that the size-threshold test ignores. -/
def optC7 : OptParams :=
  { iterations := 100, densify_from_iter := 2, densify_until_iter := 50,
    densification_interval := 2, opacity_reset_interval := 10,
    switch_iteration := 0, use_gumbel_in_finetune := false,
    use_sigmoid_final := false }

/-- Concrete configuration used by the witness of the size-threshold
equivalence. -/
def optC7w : OptParams :=
  { iterations := 100, densify_from_iter := 1, densify_until_iter := 20,
    densification_interval := 1, opacity_reset_interval := 2,
    switch_iteration := 0, use_gumbel_in_finetune := false,
    use_sigmoid_final := false }

/-- Concrete configuration with `use_gumbel_in_finetune` set and a switch
iteration after the densify-until boundary: the fine-tune switch rebinds the
activation back to the gate. -/
def optC5 : OptParams :=
  { iterations := 10, densify_from_iter := 1, densify_until_iter := 5,
    densification_interval := 2, opacity_reset_interval := 3,
    switch_iteration := 8, use_gumbel_in_finetune := true,
    use_sigmoid_final := false }

/-- Concrete configuration with `use_gumbel_in_finetune` unset, used by the
witness of the amended one-wayness statement. -/
def optC5w : OptParams :=
  { iterations := 10, densify_from_iter := 1, densify_until_iter := 5,
    densification_interval := 2, opacity_reset_interval := 3,
    switch_iteration := 8, use_gumbel_in_finetune := false,
    use_sigmoid_final := true }

/-- Concrete configuration (five iterations in total) used by the witness of
the optimizer-step claim. -/
def optC10 : OptParams :=
  { iterations := 5, densify_from_iter := 1, densify_until_iter := 3,
    densification_interval := 1, opacity_reset_interval := 2,
    switch_iteration := 0, use_gumbel_in_finetune := false,
    use_sigmoid_final := false }

/-- The opacity-reset trigger of `train.py`, as a plain predicate: the code
resets exactly when the iteration is inside the densification window and the
interval or white-background condition holds. -/
theorem resetOpacityInvoked_iff (opt : OptParams) (white : Bool) (i : ℕ) :
    resetOpacityInvoked opt white i = true ↔
      i < opt.densify_until_iter ∧
        (i % opt.opacity_reset_interval = 0 ∨
          (white = true ∧ i = opt.densify_from_iter)) := by
  unfold resetOpacityInvoked
  split
  · next h =>
      simp only [Bool.or_eq_true, beq_iff_eq, Bool.and_eq_true]
      tauto
  · next h => simp [h]

/-- C4: `densify_and_prune` is invoked at an iteration exactly when
`densify_from_iter < iteration < densify_until_iter` and
`iteration % densification_interval == 0`. -/
theorem densify_and_prune_invoked_iff (opt : OptParams) (iteration : ℕ) :
    densifyAndPruneInvoked opt iteration = true ↔
      (opt.densify_from_iter < iteration ∧
        iteration < opt.densify_until_iter ∧
        iteration % opt.densification_interval = 0) := by
  unfold densifyAndPruneInvoked
  split
  · next h =>
      simp only [Bool.and_eq_true, decide_eq_true_iff, beq_iff_eq]
      tauto
  · next h => simp [h]

/-- C6 counterexample: with `densify_until_iter = 5` and
`opacity_reset_interval = 3`, iteration 6 is a valid training iteration and a
multiple of the reset interval (and the background is not white), yet the
code performs no opacity reset there, because the reset sits inside the
densification window guard that the claim omits. -/
theorem opacity_reset_counterexample :
    6 % optC6.opacity_reset_interval = 0 ∧ 1 ≤ 6 ∧ 6 ≤ optC6.iterations ∧
      resetOpacityInvoked optC6 false 6 = false := by decide

/-- C6 (amended): the opacity reset is performed at an iteration exactly when
the iteration is strictly below `densify_until_iter` and, in addition,
`iteration % opacity_reset_interval == 0` or the background is white and
`iteration == densify_from_iter`. -/
theorem opacity_reset_invoked_iff (opt : OptParams) (white : Bool) (i : ℕ) :
    resetOpacityInvoked opt white i = true ↔
      i < opt.densify_until_iter ∧
        (i % opt.opacity_reset_interval = 0 ∨
          (white = true ∧ i = opt.densify_from_iter)) :=
  resetOpacityInvoked_iff opt white i

/-- C7 counterexample: with a white background and `densify_from_iter = 2`,
the densification call at iteration 4 happens after the opacity reset that
the white-background clause performed at iteration 2, yet the code still
passes `size_threshold = None` because it only tests
`iteration > opacity_reset_interval`. -/
theorem size_threshold_counterexample :
    densifyAndPruneInvoked optC7 4 = true ∧
      resetOpacityInvoked optC7 true 2 = true ∧ 2 < 4 ∧
      sizeThreshold optC7 4 = none := by decide

/-- C7 (amended): when the background is not white and the reset interval is
positive, a densification call at iteration `i` receives a non-`None`
`size_threshold` exactly when some earlier iteration performed an opacity
reset. -/
theorem size_threshold_iff_reset_occurred (opt : OptParams) (i : ℕ)
    (hint : 0 < opt.opacity_reset_interval)
    (hfrom : opt.densify_from_iter < i)
    (huntil : i < opt.densify_until_iter) :
    (sizeThreshold opt i).isSome = true ↔
      ∃ r, 1 ≤ r ∧ r < i ∧ resetOpacityInvoked opt false r = true := by
  constructor
  · intro h
    have hlt : opt.opacity_reset_interval < i := by
      by_contra hc
      simp [sizeThreshold, hc] at h
    refine ⟨opt.opacity_reset_interval, hint, hlt, ?_⟩
    rw [resetOpacityInvoked_iff]
    exact ⟨lt_trans hlt huntil, Or.inl (Nat.mod_self _)⟩
  · rintro ⟨r, hr1, hri, hr⟩
    rw [resetOpacityInvoked_iff] at hr
    rcases hr.2 with hmod | ⟨hw, _⟩
    · have hdvd : opt.opacity_reset_interval ∣ r := Nat.dvd_of_mod_eq_zero hmod
      have hle : opt.opacity_reset_interval ≤ r := Nat.le_of_dvd (by omega) hdvd
      have hlt : opt.opacity_reset_interval < i := by omega
      simp [sizeThreshold, hlt]
    · exact absurd hw (by simp)

/-- Witness for the amended size-threshold equivalence, at iteration 5 of a
concrete configuration. -/
theorem size_threshold_iff_witness :
    0 < optC7w.opacity_reset_interval ∧ optC7w.densify_from_iter < 5 ∧
      5 < optC7w.densify_until_iter ∧
      ((sizeThreshold optC7w 5).isSome = true ↔
        ∃ r, 1 ≤ r ∧ r < 5 ∧ resetOpacityInvoked optC7w false r = true) :=
  ⟨by decide, by decide, by decide,
    size_threshold_iff_reset_occurred optC7w 5 (by decide) (by decide)
      (by decide)⟩

/-- C5 counterexample: with `densify_until_iter = 5`,
`use_gumbel_in_finetune = True` and `switch_iteration = 8`, running the loop
from the stochastic gate switches the activation to the plain sigmoid at
iteration 6 (the boundary switch), but the later iteration 8 rebinds it back
to the Gumbel gate. -/
theorem activation_rebind_counterexample :
    8 ≤ optC5.iterations ∧
      activationAfter optC5 OpacityActivation.gumbelGate [1, 2, 3, 4, 5, 6] =
        OpacityActivation.sigmoidAct ∧
      activationAfter optC5 OpacityActivation.gumbelGate
          [1, 2, 3, 4, 5, 6, 7, 8] =
        OpacityActivation.gumbelGate := by decide

/-- A single iteration never rebinds the activation to the Gumbel gate when
`use_gumbel_in_finetune` is unset. -/
theorem activationStep_ne_gumbelGate (opt : OptParams)
    (h : opt.use_gumbel_in_finetune = false) (a : OpacityActivation)
    (ha : a ≠ OpacityActivation.gumbelGate) (i : ℕ) :
    activationStep opt a i ≠ OpacityActivation.gumbelGate := by
  unfold activationStep
  simp only [h, Bool.and_false, Bool.false_eq_true, if_false]
  split
  · simp
  · split
    · simp
    · exact ha

/-- C5 (amended): once the opacity activation is anything other than the
Gumbel gate (in particular, the plain sigmoid set at the densify-until-iter
boundary), no sequence of later iterations rebinds it to the gate, provided
`use_gumbel_in_finetune` is unset; when that flag is set, the iteration
equal to `switch_iteration` does rebind the activation to the gate. -/
theorem activation_never_rebound_to_gate (opt : OptParams)
    (h : opt.use_gumbel_in_finetune = false) (a : OpacityActivation)
    (ha : a ≠ OpacityActivation.gumbelGate) (its : List ℕ) :
    activationAfter opt a its ≠ OpacityActivation.gumbelGate := by
  induction its generalizing a with
  | nil => simpa [activationAfter]
  | cons i is ih =>
      rw [activationAfter, List.foldl_cons]
      exact ih _ (activationStep_ne_gumbelGate opt h a ha i)

/-- Witness for the amended one-wayness statement: with the fine-tune flag
unset, running iterations 6 through 9 from the sigmoid activation never
returns to the Gumbel gate. -/
theorem activation_never_rebound_witness :
    optC5w.use_gumbel_in_finetune = false ∧
      OpacityActivation.sigmoidAct ≠ OpacityActivation.gumbelGate ∧
      activationAfter optC5w OpacityActivation.sigmoidAct [6, 7, 8, 9] ≠
        OpacityActivation.gumbelGate :=
  ⟨rfl, by decide,
    activation_never_rebound_to_gate optC5w rfl OpacityActivation.sigmoidAct
      (by decide) [6, 7, 8, 9]⟩

/-- C10: the backward pass runs at every iteration, but the optimizer step
and gradient clear are skipped exactly at the final iteration
(`iteration == opt.iterations`): there the optimizer state is left
unchanged, while at every earlier iteration the step and the gradient clear
are applied. -/
theorem optimizer_step_skipped_at_final {σ : Type}
    (stepFn zeroGradFn : σ → σ) (opt : OptParams) (i : ℕ) (st : σ)
    (h1 : 1 ≤ i) (h2 : i ≤ opt.iterations) :
    backwardRuns i = true ∧
      (i = opt.iterations → optimizerPhase stepFn zeroGradFn opt i st = st) ∧
      (i < opt.iterations →
        optimizerPhase stepFn zeroGradFn opt i st = zeroGradFn (stepFn st)) := by
  refine ⟨rfl, ?_, ?_⟩
  · intro he
    simp [optimizerPhase, he]
  · intro hlt
    simp [optimizerPhase, hlt]

/-- Witness for the optimizer-step claim: in a five-iteration run with a
concrete optimizer state, iteration 5 leaves the state unchanged and
iteration 3 applies step then zero-grad. -/
theorem optimizer_step_skipped_witness :
    1 ≤ 5 ∧ 5 ≤ optC10.iterations ∧
      optimizerPhase (fun n => n + 1) (fun n => 2 * n) optC10 5 (0 : ℕ) = 0 ∧
      optimizerPhase (fun n => n + 1) (fun n => 2 * n) optC10 3 (0 : ℕ) = 2 := by
  refine ⟨by decide, by decide, ?_, ?_⟩
  · exact (optimizer_step_skipped_at_final (fun n => n + 1) (fun n => 2 * n)
      optC10 5 0 (by decide) (by decide)).2.1 rfl
  · have h := (optimizer_step_skipped_at_final (fun n => n + 1)
      (fun n => 2 * n) optC10 3 0 (by decide) (by decide)).2.2 (by decide)
    simpa using h

/-- Pruning a list against the boolean image of a predicate keeps exactly the
elements where the predicate is false. -/
theorem prune_points_map_eq_filter {α : Type} (p : α → Bool) (masks : List α) :
    prune_points masks (masks.map p) = masks.filter (fun m => !p m) := by
  induction masks with
  | nil => rfl
  | cons m ms ih =>
      simp only [prune_points, List.map_cons, List.zip_cons_cons,
        List.filter_cons] at *
      by_cases h : p m <;> simp [h, ih]

/-- Once the mask flag is cleared, the mask-prune block leaves the state
untouched. -/
theorem maskPruneStep_of_use_mask_false {α : Type} [LinearOrderedField α]
    (P : List ℕ) (st : PruneState α) (h : st.use_mask = false) (i : ℕ) :
    maskPruneStep P st i = st := by
  unfold maskPruneStep
  split
  · simp [h]
  · rfl

/-- Iterating the mask-prune block from a state whose mask flag is cleared
changes nothing. -/
theorem foldl_maskPruneStep_of_use_mask_false {α : Type} [LinearOrderedField α]
    (P : List ℕ) (st : PruneState α) (h : st.use_mask = false)
    (its : List ℕ) :
    its.foldl (maskPruneStep P) st = st := by
  induction its with
  | nil => rfl
  | cons i is ih =>
      rw [List.foldl_cons, maskPruneStep_of_use_mask_false P st h i]
      exact ih

/-- C3: at an iteration in `prune_iterations` with the mask flag still set,
the mask-prune block removes exactly the points whose mask output is below
one half (keeping the rest in order), clears the flag, and every subsequent
iteration of the block — whether or not it lies in `prune_iterations` —
leaves the state unchanged. -/
theorem mask_prune_exact_and_one_time {α : Type} [LinearOrderedField α]
    (P : List ℕ) (st : PruneState α) (i : ℕ) (its : List ℕ)
    (hi : i ∈ P) (hm : st.use_mask = true) :
    (maskPruneStep P st i).masks =
        st.masks.filter (fun m => decide ((1 : α)/2 ≤ m)) ∧
      (maskPruneStep P st i).use_mask = false ∧
      its.foldl (maskPruneStep P) (maskPruneStep P st i) =
        maskPruneStep P st i := by
  have hstep : maskPruneStep P st i =
      { masks := prune_points st.masks
          (st.masks.map (fun m => decide (m < 1/2))),
        use_mask := false, g_use_mask := false } := by
    unfold maskPruneStep
    simp [hi, hm]
  refine ⟨?_, ?_, ?_⟩
  · rw [hstep]
    show prune_points st.masks _ = _
    rw [prune_points_map_eq_filter]
    congr 1
    funext m
    simp [← decide_not, not_lt]
  · rw [hstep]
  · exact foldl_maskPruneStep_of_use_mask_false P _ (by rw [hstep]) its

/-- Witness for the mask-prune claim: a two-point state over the rationals
with masks one quarter and three quarters, pruned at iteration 7; the point
below one half is removed and iterations 8 and 9 change nothing more. -/
theorem mask_prune_witness :
    7 ∈ [7] ∧
      (PruneState.mk [(1 : ℚ)/4, 3/4] true true).use_mask = true ∧
      (maskPruneStep [7] (PruneState.mk [(1 : ℚ)/4, 3/4] true true) 7).masks =
        [(1 : ℚ)/4, 3/4].filter (fun m => decide ((1 : ℚ)/2 ≤ m)) ∧
      (maskPruneStep [7] (PruneState.mk [(1 : ℚ)/4, 3/4] true true) 7).use_mask
        = false ∧
      [8, 9].foldl (maskPruneStep [7])
          (maskPruneStep [7] (PruneState.mk [(1 : ℚ)/4, 3/4] true true) 7) =
        maskPruneStep [7] (PruneState.mk [(1 : ℚ)/4, 3/4] true true) 7 := by
  have h := mask_prune_exact_and_one_time [7]
    (PruneState.mk [(1 : ℚ)/4, 3/4] true true) 7 [8, 9] (by decide) rfl
  exact ⟨by decide, rfl, h.1, h.2.1, h.2.2⟩

/-- The viewer loop always returns normally: every exception in the try-body
is caught by the except clause, so no event sequence makes it propagate an
error out of the loop. -/
theorem viewerLoop_ok (conn : Option Unit) (evts : List ViewerEvent) :
    ∃ c, viewerLoop conn evts = Except.ok c := by
  induction evts generalizing conn with
  | nil => cases conn <;> exact ⟨_, rfl⟩
  | cons e rest ih =>
      cases conn with
      | none => exact ⟨none, rfl⟩
      | some c =>
          cases e with
          | error u => exact ⟨none, rfl⟩
          | ok brk =>
              cases brk with
              | true => exact ⟨some (), rfl⟩
              | false => simpa [viewerLoop] using ih (some ())

/-- After any number of completed non-breaking exchanges, an exception makes
the loop exit with the connection reset to `None`. -/
theorem viewerLoop_error_after_oks (rest : List ViewerEvent)
    (oks : List ViewerEvent) :
    (∀ e ∈ oks, e = Except.ok false) →
    viewerLoop (some ()) (oks ++ Except.error () :: rest) = Except.ok none := by
  induction oks with
  | nil => intro _; rfl
  | cons e es ih =>
      intro h
      have he : e = Except.ok false := h e (List.mem_cons_self e es)
      subst he
      simpa [viewerLoop] using ih (fun x hx => h x (List.mem_cons_of_mem _ hx))

/-- C9: no viewer I/O failure aborts training — the loop always returns
normally — and if an exception is raised during an exchange (after any
number of completed non-breaking exchanges), the loop catches it, resets the
connection state to disconnected, and returns so that the current training
iteration proceeds. -/
theorem viewer_exception_resets_connection (oks rest : List ViewerEvent)
    (h : ∀ e ∈ oks, e = Except.ok false) :
    (∀ conn evts, ∃ c, viewerLoop conn evts = Except.ok c) ∧
      viewerLoop (some ()) (oks ++ Except.error () :: rest) =
        Except.ok none :=
  ⟨viewerLoop_ok, viewerLoop_error_after_oks rest oks h⟩

/-- Witness for the viewer-exception claim: one completed non-breaking
exchange, then an exception, with one more message pending. -/
theorem viewer_exception_witness :
    (∀ e ∈ ([Except.ok false] : List ViewerEvent), e = Except.ok false) ∧
      viewerLoop (some ())
          ([Except.ok false] ++ Except.error () :: [Except.ok true]) =
        Except.ok none := by
  have h : ∀ e ∈ ([Except.ok false] : List ViewerEvent),
      e = Except.ok false := by
    intro e he
    simpa using he
  exact ⟨h,
    (viewer_exception_resets_connection [Except.ok false] [Except.ok true]
      h).2⟩

/-- The logistic sigmoid is strictly positive everywhere. -/
theorem sigmoid_pos (x : ℝ) : 0 < sigmoid x := by
  unfold sigmoid
  positivity

/-- The logistic sigmoid is strictly below one everywhere. -/
theorem sigmoid_lt_one (x : ℝ) : sigmoid x < 1 := by
  unfold sigmoid
  rw [div_lt_one (by positivity)]
  linarith [Real.exp_pos (-x)]

/-- The exponential of four is below eighty-one. -/
theorem exp_four_lt : Real.exp 4 < 81 := by
  have h1 : Real.exp 1 < 2.7182818286 := Real.exp_one_lt_d9
  have h4 : Real.exp 4 = Real.exp 1 ^ 4 := by
    rw [← Real.exp_nat_mul]
    norm_num
  rw [h4]
  calc Real.exp 1 ^ 4 < 2.7182818286 ^ 4 := by
        apply pow_lt_pow_left₀ h1 (le_of_lt (Real.exp_pos 1))
        norm_num
    _ < 81 := by norm_num

/-- C1 counterexample: for the valid uniform samples
`u1 = exp(-4) - 1e-10` and `u2 = exp(-1) - 1e-10` (both in `[0,1)`) and the
default `eps = 1e-10`, the noise the code computes (inner ratio numerator
from the first sample) differs from the value of the spec's formula (inner
ratio numerator from the second sample): the code yields `-log(4 + eps)`
while the spec's formula yields `-log(1/4 + eps)`. -/
theorem gumbel_noise_formula_counterexample :
    0 ≤ Real.exp (-4) - 1e-10 ∧ Real.exp (-4) - 1e-10 < 1 ∧
      0 ≤ Real.exp (-1) - 1e-10 ∧ Real.exp (-1) - 1e-10 < 1 ∧
      gumbel_noise (Real.exp (-4) - 1e-10) (Real.exp (-1) - 1e-10) 1e-10 ≠
        specNoise (Real.exp (-4) - 1e-10) (Real.exp (-1) - 1e-10) 1e-10 := by
  have h4lo : (1e-10 : ℝ) < Real.exp (-4) := by
    have h : Real.exp 4 < 1e10 := lt_trans exp_four_lt (by norm_num)
    rw [Real.exp_neg, show (1e-10 : ℝ) = (1e10)⁻¹ by norm_num]
    exact inv_strictAnti₀ (Real.exp_pos 4) h
  have h4hi : Real.exp (-4 : ℝ) < 1 := by
    rw [Real.exp_lt_one_iff]
    norm_num
  have h1lo : (1e-10 : ℝ) < Real.exp (-1) := by
    have h : Real.exp 1 < 1e10 := lt_trans Real.exp_one_lt_d9 (by norm_num)
    rw [Real.exp_neg, show (1e-10 : ℝ) = (1e10)⁻¹ by norm_num]
    exact inv_strictAnti₀ (Real.exp_pos 1) h
  have h1hi : Real.exp (-1 : ℝ) < 1 := by
    rw [Real.exp_lt_one_iff]
    norm_num
  refine ⟨by linarith, by linarith, by linarith, by linarith, ?_⟩
  have e1 : Real.exp (-4) - 1e-10 + 1e-10 = Real.exp (-4 : ℝ) := by ring
  have e2 : Real.exp (-1) - 1e-10 + 1e-10 = Real.exp (-1 : ℝ) := by ring
  unfold gumbel_noise specNoise logArg3
  rw [e1, e2, Real.log_exp, Real.log_exp]
  rw [show (-4 : ℝ)/(-1) + 1e-10 = 4 + 1e-10 by norm_num,
    show (-1 : ℝ)/(-4) + 1e-10 = 1/4 + 1e-10 by norm_num]
  have hlt : Real.log (1/4 + 1e-10) < Real.log (4 + 1e-10) :=
    Real.log_lt_log (by norm_num) (by norm_num)
  intro heq
  have heq2 := neg_injective heq
  linarith

/-- C1 (amended): the code's noise term equals the spec's formula with the
roles of the two uniform samples swapped — the numerator of the inner
log-ratio is computed from the first sample `u1` and the denominator from
the second sample `u2`. -/
theorem gumbel_noise_eq_spec_formula_swapped (u1 u2 eps : ℝ) :
    gumbel_noise u1 u2 eps = specNoise u2 u1 eps := rfl

/-- C8 counterexample: with `temperature = 1 > 0`, `eps = 1/2 > 0` and the
uniform samples `u1 = 3/4` and `u2 = 1/4` (both in `[0,1)`), the argument of
the outermost logarithm in the gate's noise computation is strictly
negative, so the additive epsilon does not make every logarithm's argument
positive. -/
theorem gate_log_argument_counterexample :
    (0 : ℝ) < 1/2 ∧ (0 : ℝ) ≤ 3/4 ∧ (3/4 : ℝ) < 1 ∧ (0 : ℝ) ≤ 1/4 ∧
      (1/4 : ℝ) < 1 ∧ (0 : ℝ) < 1 ∧ logArg3 (3/4) (1/4) (1/2) < 0 := by
  refine ⟨by norm_num, by norm_num, by norm_num, by norm_num, by norm_num,
    by norm_num, ?_⟩
  unfold logArg3
  have key : Real.log (4/3 : ℝ) < 2 * Real.log (5/4 : ℝ) := by
    have hl : Real.log (4/3 : ℝ) < Real.log (25/16 : ℝ) :=
      Real.log_lt_log (by norm_num) (by norm_num)
    have hp : Real.log ((5/4 : ℝ) ^ 2) = 2 * Real.log (5/4 : ℝ) := by
      rw [Real.log_pow]
      norm_num
    rw [show ((5/4 : ℝ) ^ 2) = 25/16 by norm_num] at hp
    linarith
  have hpos : 0 < Real.log (4/3 : ℝ) := Real.log_pos (by norm_num)
  have hlog34 : Real.log (3/4 : ℝ) = -Real.log (4/3 : ℝ) := by
    rw [show (3/4 : ℝ) = (4/3)⁻¹ by norm_num, Real.log_inv]
  rw [show (3/4 : ℝ) + 1/2 = 5/4 by norm_num,
    show (1/4 : ℝ) + 1/2 = 3/4 by norm_num, hlog34]
  have hdiv : Real.log (5/4 : ℝ) / (-Real.log (4/3 : ℝ)) < -(1/2) := by
    rw [div_lt_iff_of_neg (by linarith)]
    ring_nf
    linarith
  linarith

/-- C8 (amended): for every positive temperature and epsilon and uniform
samples with `u1 + eps ≤ 1` and `u2 + eps < 1`, all three logarithm
arguments in the gate's noise computation are strictly positive, and the
gate's soft output is a real number strictly between zero and one. -/
theorem gate_log_arguments_positive (u1 u2 eps temperature input : ℝ)
    (heps : 0 < eps) (htemp : 0 < temperature) (hu1 : 0 ≤ u1) (hu2 : 0 ≤ u2)
    (h1 : u1 + eps ≤ 1) (h2 : u2 + eps < 1) :
    0 < u1 + eps ∧ 0 < u2 + eps ∧ 0 < logArg3 u1 u2 eps ∧
      0 < y_soft_val input (gumbel_noise u1 u2 eps) temperature ∧
      y_soft_val input (gumbel_noise u1 u2 eps) temperature < 1 := by
  refine ⟨by linarith, by linarith, ?_, sigmoid_pos _, sigmoid_lt_one _⟩
  unfold logArg3
  have hl1 : Real.log (u1 + eps) ≤ 0 := Real.log_nonpos (by linarith) h1
  have hl2 : Real.log (u2 + eps) ≤ 0 :=
    Real.log_nonpos (by linarith) (le_of_lt h2)
  have hq : 0 ≤ Real.log (u1 + eps) / Real.log (u2 + eps) :=
    div_nonneg_of_nonpos hl1 hl2
  linarith

/-- Witness for the amended positivity statement, at
`u1 = u2 = 0`, `eps = 1/2`, `temperature = 1`, `input = 0`. -/
theorem gate_log_arguments_positive_witness :
    (0 : ℝ) < 1/2 ∧ (0 : ℝ) < 1 ∧ (0 : ℝ) ≤ 0 ∧ (0 : ℝ) + 1/2 ≤ 1 ∧
      (0 : ℝ) + 1/2 < 1 ∧
      (0 < (0 : ℝ) + 1/2 ∧ 0 < (0 : ℝ) + 1/2 ∧ 0 < logArg3 0 0 (1/2) ∧
        0 < y_soft_val 0 (gumbel_noise 0 0 (1/2)) 1 ∧
        y_soft_val 0 (gumbel_noise 0 0 (1/2)) 1 < 1) :=
  ⟨by norm_num, by norm_num, le_refl 0, by norm_num, by norm_num,
    gate_log_arguments_positive 0 0 (1/2) 1 0 (by norm_num) (by norm_num)
      (le_refl 0) (le_refl 0) (by norm_num) (by norm_num)⟩

/-- Writing ones into a list never changes its length. -/
theorem scatter_foldl_length {α : Type} [Zero α] [One α] (idx : List ℕ)
    (l : List α) :
    (idx.foldl (fun acc i => acc.set i 1) l).length = l.length := by
  induction idx generalizing l with
  | nil => rfl
  | cons i is ih => rw [List.foldl_cons, ih, List.length_set]

/-- Element read-out of a list after writing ones at a set of indices: an
in-range index that occurs in the index list reads one, any other index
reads the original entry. -/
theorem scatter_foldl_getD {α : Type} [Zero α] [One α] (idx : List ℕ)
    (l : List α) (j : ℕ) :
    (idx.foldl (fun acc i => acc.set i 1) l).getD j 0 =
      if j ∈ idx ∧ j < l.length then 1 else l.getD j 0 := by
  induction idx generalizing l with
  | nil => simp
  | cons i is ih =>
      have hset : (l.set i 1).getD j 0 =
          if i = j ∧ i < l.length then 1 else l.getD j 0 := by
        rw [List.getD_eq_getElem?_getD, List.getD_eq_getElem?_getD,
          List.getElem?_set]
        by_cases hij : i = j
        · subst hij
          by_cases hl : i < l.length
          · simp [hl]
          · have hn : l[i]? = none := List.getElem?_eq_none (not_lt.mp hl)
            simp [hl, hn]
        · simp [hij]
      rw [List.foldl_cons, ih, List.length_set, hset]
      simp only [List.mem_cons]
      by_cases hij : i = j
      · subst hij
        by_cases hmem : i ∈ is <;> by_cases hlen : i < l.length <;>
          simp [hmem, hlen]
      · have hji : ¬(j = i) := fun h => hij h.symm
        by_cases hmem : j ∈ is <;> by_cases hlen : j < l.length <;>
          simp [hmem, hlen, hij, hji]

/-- The scattered hard tensor is, element for element at in-range indices,
the threshold of the soft value at one half: the nonzero-index/scatter
construction of `_gumbel_sigmoid` computes the per-element indicator of
`y_soft > 0.5`. -/
theorem y_hard_getD {α : Type} [LinearOrderedField α] (ys : List α) (j : ℕ)
    (hj : j < ys.length) :
    (y_hard ys).getD j 0 = if 1/2 < ys.getD j 0 then 1 else 0 := by
  unfold y_hard scatterOnes
  rw [scatter_foldl_getD, List.length_replicate]
  have hrep : (List.replicate ys.length (0 : α)).getD j 0 = 0 := by
    rw [List.getD_eq_getElem?_getD, List.getElem?_replicate]
    simp [hj]
  have hmem : j ∈ nonzeroGtHalf ys ↔ (1/2 < ys.getD j 0) := by
    unfold nonzeroGtHalf
    rw [List.mem_filter, List.mem_range]
    simp [hj]
  by_cases hc : (1 : α)/2 < ys.getD j 0
  · rw [if_pos ⟨hmem.mpr hc, hj⟩, if_pos hc]
  · rw [if_neg (fun h => hc (hmem.mp h.1)), if_neg hc, hrep]

/-- C2: for the hard variant at a fixed noise sample, each in-range element
of the returned tensor is exactly zero or one, equals the threshold at one
half of the soft value `sigmoid((logit + noise)/temperature)`, and the
straight-through expression `y_hard - y_soft.detach() + y_soft` has forward
value equal to the hard value while its gradient equals the soft value's
gradient. -/
theorem hard_gate_straight_through (logits noises : List ℝ)
    (temperature d : ℝ) (ht : 0 < temperature) (i : ℕ)
    (hi : i < (y_soft_list logits noises temperature).length) :
    ((y_hard (y_soft_list logits noises temperature)).getD i 0 = 0 ∨
      (y_hard (y_soft_list logits noises temperature)).getD i 0 = 1) ∧
      (y_hard (y_soft_list logits noises temperature)).getD i 0 =
        (if 1/2 < (y_soft_list logits noises temperature).getD i 0 then 1
          else 0) ∧
      (straightThrough
          ((y_hard (y_soft_list logits noises temperature)).getD i 0)
          ⟨(y_soft_list logits noises temperature).getD i 0, d⟩).val =
        (y_hard (y_soft_list logits noises temperature)).getD i 0 ∧
      (straightThrough
          ((y_hard (y_soft_list logits noises temperature)).getD i 0)
          ⟨(y_soft_list logits noises temperature).getD i 0, d⟩).grad = d := by
  have hg := y_hard_getD (y_soft_list logits noises temperature) i hi
  refine ⟨?_, hg, ?_, ?_⟩
  · rw [hg]
    split
    · exact Or.inr rfl
    · exact Or.inl rfl
  · simp [straightThrough, Dual.add, Dual.sub, Dual.detach, Dual.const]
  · simp [straightThrough, Dual.add, Dual.sub, Dual.detach, Dual.const]

/-- Witness for the hard-gate straight-through claim, at the spec's own
scenario `logits = [+10, -10]`, `temperature = 1`, zero noise, element 0,
downstream soft gradient 1. -/
theorem hard_gate_straight_through_witness :
    (0 : ℝ) < 1 ∧ 0 < (y_soft_list [10, -10] [0, 0] 1).length ∧
      (((y_hard (y_soft_list [10, -10] [0, 0] 1)).getD 0 0 = 0 ∨
        (y_hard (y_soft_list [10, -10] [0, 0] 1)).getD 0 0 = 1) ∧
        (y_hard (y_soft_list [10, -10] [0, 0] 1)).getD 0 0 =
          (if 1/2 < (y_soft_list [10, -10] [0, 0] 1).getD 0 0 then 1
            else 0) ∧
        (straightThrough ((y_hard (y_soft_list [10, -10] [0, 0] 1)).getD 0 0)
            ⟨(y_soft_list [10, -10] [0, 0] 1).getD 0 0, 1⟩).val =
          (y_hard (y_soft_list [10, -10] [0, 0] 1)).getD 0 0 ∧
        (straightThrough ((y_hard (y_soft_list [10, -10] [0, 0] 1)).getD 0 0)
            ⟨(y_soft_list [10, -10] [0, 0] 1).getD 0 0, 1⟩).grad = 1) := by
  refine ⟨by norm_num, ?_, ?_⟩
  · simp [y_soft_list]
  · exact hard_gate_straight_through [10, -10] [0, 0] 1 1 (by norm_num) 0
      (by simp [y_soft_list])
